import Mathlib

/-!
Shallow embedding of the StellarVault deposit-accounting core (src/main.rs).

Machine integers are modelled as `ℕ`.  Every `as u64` narrowing cast in the
source is rendered as `% U64MOD` (Rust `as` casts truncate to the low 64
bits).  The `u64` additions of the source are rendered as plain `ℕ`
addition; every trace-level theorem below carries explicit `< 2^64` bounds
under which this agrees with both the wrapping and the panicking overflow
semantics, and the concrete counterexamples use only small values, where
they also agree.  The external Stellar client (an I/O handle) is modelled
by a `DepositEnv` record carrying the outcomes of the two network calls a
deposit makes; the `f64` account balance is idealised as `ℚ` (only the
branch structure of the balance check matters to the claims below).
-/

/-- Scaled-integer unit: 10^7 stroops = 1 XLM (the literal `10_000_000`
appearing at src/main.rs:46,48,252). -/
def UNIT : ℕ := 10000000

/-- Modulus of the `u64` type; `as u64` casts truncate by this. -/
def U64MOD : ℕ := 2 ^ 64

/-- Risk tiers (src/main.rs:11-16). -/
inductive RiskLevel where
  | Low
  | Medium
  | High
deriving DecidableEq

/-- Strategy kinds (src/main.rs:18-23); purely descriptive. -/
inductive StrategyType where
  | AquaLiquidityPool
  | YieldBloxLending
  | MoneyMarket
deriving DecidableEq

/-- A yield strategy (src/main.rs:25-32).  `allocation_percentage` is `u8`,
`current_apy` is `u16`, the totals are `u64`. -/
structure Strategy where
  strategy_type : StrategyType
  allocation_percentage : ℕ
  current_apy : ℕ
  total_allocated : ℕ
  current_yield : ℕ
deriving DecidableEq

/-- A risk-tier vault (src/main.rs:34-41). -/
structure Vault where
  risk_level : RiskLevel
  total_value : ℕ
  total_shares : ℕ
  insurance_fee : ℕ
  strategies : List Strategy
deriving DecidableEq

/-- Share price (src/main.rs:44-50): `10_000_000` on an empty vault, else
`(total_value as u128 * 10_000_000 / total_shares as u128) as u64`. -/
def Vault.get_share_price (v : Vault) : ℕ :=
  if v.total_shares = 0 then
    UNIT
  else
    (v.total_value * UNIT / v.total_shares) % U64MOD

/-- Per-user position (src/main.rs:53-57). -/
structure UserPosition where
  shares : ℕ
  accumulated_yield : ℕ
deriving DecidableEq

/-- Insurance cut of a gross deposit (src/main.rs:254):
`(amount_stroops as u128 * vault.insurance_fee as u128 / 10000) as u64`. -/
def insuranceCutOf (v : Vault) (amount_stroops : ℕ) : ℕ :=
  (amount_stroops * v.insurance_fee / 10000) % U64MOD

/-- Net deposit after the insurance cut (src/main.rs:255). -/
def netOf (v : Vault) (amount_stroops : ℕ) : ℕ :=
  amount_stroops - insuranceCutOf v amount_stroops

/-- Strategy-allocation step of a deposit (src/main.rs:261-264):
`alloc = (net_deposit as u128 * strategy.allocation_percentage as u128 / 100) as u64`,
added to `total_allocated`. -/
def Strategy.allocate (net_deposit : ℕ) (s : Strategy) : Strategy :=
  { s with total_allocated :=
      s.total_allocated + (net_deposit * s.allocation_percentage / 100) % U64MOD }

/-- Ledger effect of a deposit on one vault (src/main.rs:251-264): price the
shares against the pre-deposit state, mint
`(amount_stroops as u128 * 10_000_000 / share_price as u128) as u64` shares,
take the insurance cut, credit the net amount to `total_value`, the shares to
`total_shares`, and allocate the net amount across the strategies in order.
Returns the updated vault, the minted shares, and the insurance cut. -/
def Vault.applyDeposit (v : Vault) (amount_stroops : ℕ) : Vault × ℕ × ℕ :=
  let share_price := v.get_share_price
  let shares_to_mint := (amount_stroops * UNIT / share_price) % U64MOD
  let insurance_amount := insuranceCutOf v amount_stroops
  let net_deposit := amount_stroops - insurance_amount
  ({ v with
      total_value := v.total_value + net_deposit,
      total_shares := v.total_shares + shares_to_mint,
      strategies := v.strategies.map (Strategy.allocate net_deposit) },
   shares_to_mint, insurance_amount)

/-- The Low-risk vault built by `StellarVault::new` (src/main.rs:150-164). -/
def initLowVault : Vault :=
  { risk_level := RiskLevel.Low
    total_value := 0
    total_shares := 0
    insurance_fee := 50
    strategies := [
      { strategy_type := StrategyType.YieldBloxLending
        allocation_percentage := 100
        current_apy := 350
        total_allocated := 0
        current_yield := 0 }] }

/-- The Medium-risk vault built by `StellarVault::new` (src/main.rs:166-187). -/
def initMediumVault : Vault :=
  { risk_level := RiskLevel.Medium
    total_value := 0
    total_shares := 0
    insurance_fee := 100
    strategies := [
      { strategy_type := StrategyType.AquaLiquidityPool
        allocation_percentage := 60
        current_apy := 850
        total_allocated := 0
        current_yield := 0 },
      { strategy_type := StrategyType.YieldBloxLending
        allocation_percentage := 40
        current_apy := 400
        total_allocated := 0
        current_yield := 0 }] }

/-- The High-risk vault built by `StellarVault::new` (src/main.rs:189-203). -/
def initHighVault : Vault :=
  { risk_level := RiskLevel.High
    total_value := 0
    total_shares := 0
    insurance_fee := 200
    strategies := [
      { strategy_type := StrategyType.MoneyMarket
        allocation_percentage := 100
        current_apy := 1500
        total_allocated := 0
        current_yield := 0 }] }

/-- The vault `StellarVault::new` inserts for each risk tier. -/
def initVaultFor : RiskLevel → Vault
  | RiskLevel.Low => initLowVault
  | RiskLevel.Medium => initMediumVault
  | RiskLevel.High => initHighVault

/-- The errors `StellarVault::deposit` can return (src/main.rs:232,246,250);
the source returns boxed strings, rendered here as one constructor per
distinct error site, with the transfer error keeping its message. -/
inductive DepositError where
  | insufficientBalance
  | transferFailed (msg : String)
  | vaultNotFound
deriving DecidableEq

/-- The errors `StellarClient::new` can return (src/main.rs:71-77). -/
inductive InitError where
  | invalidSecretKey
  | invalidPublicKey
deriving DecidableEq

/-- Outcomes of the two external Stellar network calls one `deposit` makes:
the pre-flight `get_balance` (`none` models its `Err` branch, `some b` a
fetched XLM balance, idealising the source's `f64` as `ℚ`) and the
`send_payment` transfer (`Except.error msg` models its `Err(e)` branch). -/
structure DepositEnv where
  balance_fetch : Option ℚ
  transfer_result : Except String Unit

/-- The registry (src/main.rs:138-144).  The `HashMap`s are modelled as
functions into `Option`; the `stellar_client` I/O handle is replaced by the
per-call `DepositEnv`. -/
structure StellarVault where
  vaults : RiskLevel → Option Vault
  user_positions : String × RiskLevel → Option UserPosition
  insurance_pool : ℕ
  vault_address : String

/-- The registry `StellarVault::new` builds for a given vault address
(src/main.rs:148-213): one vault per risk tier, no positions, empty
insurance pool. -/
def mkRegistryWith (vault_address : String) : StellarVault :=
  { vaults := fun r => some (initVaultFor r)
    user_positions := fun _ => none
    insurance_pool := 0
    vault_address := vault_address }

/-- Constructor (src/main.rs:147-214) including the key-format validation of
`StellarClient::new` (src/main.rs:70-86): the secret key must start with `S`
and be 56 characters, the public key must start with `G` and be 56
characters.  (`starts_with(char)` in Rust tests the first character.) -/
def StellarVault.new (user_secret_key user_public_key vault_address : String)
    : Except InitError StellarVault :=
  if user_secret_key.data.head? = some 'S' ∧ user_secret_key.length = 56 then
    if user_public_key.data.head? = some 'G' ∧ user_public_key.length = 56 then
      Except.ok (mkRegistryWith vault_address)
    else
      Except.error InitError.invalidPublicKey
  else
    Except.error InitError.invalidSecretKey

/-- The pre-flight balance check (src/main.rs:225-238): when the fetch
succeeded with balance `b`, the deposit is rejected iff `b < amount_xlm + 1`;
when the fetch failed, the source only logs a warning and continues. -/
def preflightRejects (env : DepositEnv) (amount_xlm : ℚ) : Bool :=
  match env.balance_fetch with
  | some b => decide (b < amount_xlm + 1)
  | none => false

/-- The part of `deposit` from the external transfer on (src/main.rs:241-271):
send the payment (aborting on its failure), look up the vault (aborting if
missing), apply the ledger effect, grow the insurance pool, and credit the
minted shares to the `(user, risk)` position, creating it at zero first if
absent.  Returns the updated registry together with the result. -/
def depositFromTransfer (sv : StellarVault) (env : DepositEnv) (user : String)
    (risk : RiskLevel) (amount_stroops : ℕ)
    : StellarVault × Except DepositError ℕ :=
  match env.transfer_result with
  | Except.error e => (sv, Except.error (DepositError.transferFailed e))
  | Except.ok _ =>
    match sv.vaults risk with
    | none => (sv, Except.error DepositError.vaultNotFound)
    | some vault =>
      let result := vault.applyDeposit amount_stroops
      let pos :=
        match sv.user_positions (user, risk) with
        | some p => p
        | none => { shares := 0, accumulated_yield := 0 }
      ({ sv with
          vaults := fun r => if r = risk then some result.1 else sv.vaults r,
          insurance_pool := sv.insurance_pool + result.2.2,
          user_positions := fun k =>
            if k = (user, risk) then
              some { pos with shares := pos.shares + result.2.1 }
            else
              sv.user_positions k },
       Except.ok result.2.1)

/-- `StellarVault::deposit` (src/main.rs:216-272): pre-flight balance check
first (src/main.rs:225-238), then the transfer and the ledger mutation. -/
def StellarVault.deposit (sv : StellarVault) (env : DepositEnv) (user : String)
    (risk : RiskLevel) (amount_stroops : ℕ)
    : StellarVault × Except DepositError ℕ :=
  let amount_xlm : ℚ := (amount_stroops : ℚ) / 10000000
  if preflightRejects env amount_xlm then
    (sv, Except.error DepositError.insufficientBalance)
  else
    depositFromTransfer sv env user risk amount_stroops

/-- Fold a sequence of deposit amounts through one vault's ledger
(src/main.rs:251-264 applied repeatedly). -/
def foldDeposits (v : Vault) (gs : List ℕ) : Vault :=
  gs.foldl (fun w g => (w.applyDeposit g).1) v

/-- A deposit request at registry level: environment, user, tier, amount. -/
def DepositReq : Type := DepositEnv × String × RiskLevel × ℕ

/-- Fold a sequence of deposit requests through the registry, keeping the
state each call leaves behind (errors leave it unchanged). -/
def runDeposits (sv : StellarVault) (reqs : List DepositReq) : StellarVault :=
  reqs.foldl (fun s q => (s.deposit q.1 q.2.1 q.2.2.1 q.2.2.2).1) sv

/-- Absence of 64-bit trouble in one deposit: the pre-deposit share price is
nonzero (the source would divide by zero otherwise), the `u64` amount is in
range, the minted-share quotient fits in 64 bits (so its narrowing cast is
the identity), and the two running totals stay below 2^64 (so the `u64`
additions neither wrap nor panic). -/
def okDeposit (v : Vault) (g : ℕ) : Prop :=
  0 < v.get_share_price ∧
  g < U64MOD ∧
  g * UNIT / v.get_share_price < U64MOD ∧
  v.total_shares + g * UNIT / v.get_share_price < U64MOD ∧
  v.total_value + netOf v g < U64MOD

instance (v : Vault) (g : ℕ) : Decidable (okDeposit v g) := by
  unfold okDeposit
  exact inferInstance

/-- `okDeposit` holding at every step of a deposit sequence. -/
def okTrace : Vault → List ℕ → Prop
  | _, [] => True
  | v, g :: gs => okDeposit v g ∧ okTrace (v.applyDeposit g).1 gs

instance instDecidableOkTrace : (v : Vault) → (gs : List ℕ) → Decidable (okTrace v gs)
  | _, [] => isTrue trivial
  | v, g :: gs =>
    have : Decidable (okTrace (v.applyDeposit g).1 gs) := instDecidableOkTrace _ gs
    inferInstanceAs (Decidable (okDeposit v g ∧ okTrace (v.applyDeposit g).1 gs))

/-- Sum of the per-strategy running totals of a vault. -/
def sumAllocated (v : Vault) : ℕ :=
  (v.strategies.map Strategy.total_allocated).sum

/-- Sum of the strategy percentages of a vault. -/
def pctSum (v : Vault) : ℕ :=
  (v.strategies.map Strategy.allocation_percentage).sum

/-- The part of one net deposit that floor division leaves in `total_value`
but routes into no strategy (the fee and percentages never change across
deposits, so this is determined by the initial vault configuration). -/
def remainderOf (v : Vault) (g : ℕ) : ℕ :=
  netOf v g -
    (v.strategies.map (fun s => netOf v g * s.allocation_percentage / 100)).sum

/-- The Low vault after one deposit of 1,000 stroops: `total_value = 995`,
`total_shares = 1000`, share price `9,950,000`. -/
def vaultAfterFirst : Vault := (initLowVault.applyDeposit 1000).1

/-- A vault state far outside the reachable range, where the narrowing cast
of `get_share_price` truncates: the quotient `2^63 * UNIT` has 2^64 as a
factor, so the low 64 bits are zero. -/
def bigVault : Vault :=
  { risk_level := RiskLevel.Low
    total_value := 2 ^ 63
    total_shares := 1
    insurance_fee := 50
    strategies := [] }

lemma applyDeposit_minted (v : Vault) (g : ℕ) :
    (v.applyDeposit g).2.1 = (g * UNIT / v.get_share_price) % U64MOD := rfl

lemma applyDeposit_total_value (v : Vault) (g : ℕ) :
    (v.applyDeposit g).1.total_value = v.total_value + netOf v g := rfl

lemma applyDeposit_total_shares (v : Vault) (g : ℕ) :
    (v.applyDeposit g).1.total_shares =
      v.total_shares + (g * UNIT / v.get_share_price) % U64MOD := rfl

lemma applyDeposit_insurance_fee (v : Vault) (g : ℕ) :
    (v.applyDeposit g).1.insurance_fee = v.insurance_fee := rfl

lemma applyDeposit_strategies (v : Vault) (g : ℕ) :
    (v.applyDeposit g).1.strategies =
      v.strategies.map (Strategy.allocate (netOf v g)) := rfl

lemma netOf_le (v : Vault) (g : ℕ) : netOf v g ≤ g := Nat.sub_le _ _

lemma unit_pos : 0 < UNIT := by decide

lemma price_le_unit (v : Vault) (h : v.total_value ≤ v.total_shares) :
    v.get_share_price ≤ UNIT := by
  unfold Vault.get_share_price
  by_cases hS : v.total_shares = 0
  · simp [hS]
  · rw [if_neg hS]
    calc (v.total_value * UNIT / v.total_shares) % U64MOD
        ≤ v.total_value * UNIT / v.total_shares := Nat.mod_le _ _
      _ ≤ v.total_shares * UNIT / v.total_shares :=
          Nat.div_le_div_right (Nat.mul_le_mul_right _ h)
      _ = UNIT := Nat.mul_div_cancel_left _ (Nat.pos_of_ne_zero hS)

lemma mint_ge (v : Vault) (g : ℕ) (h1 : 0 < v.get_share_price)
    (h2 : v.get_share_price ≤ UNIT)
    (hfit : g * UNIT / v.get_share_price < U64MOD) :
    g ≤ (g * UNIT / v.get_share_price) % U64MOD := by
  rw [Nat.mod_eq_of_lt hfit]
  calc g = g * UNIT / UNIT := (Nat.mul_div_cancel g unit_pos).symm
    _ ≤ g * UNIT / v.get_share_price := Nat.div_le_div_left h2 h1

lemma value_le_shares_step (v : Vault) (g : ℕ)
    (hVS : v.total_value ≤ v.total_shares) (hok : okDeposit v g) :
    (v.applyDeposit g).1.total_value ≤ (v.applyDeposit g).1.total_shares := by
  obtain ⟨h1, _, h3, _, _⟩ := hok
  rw [applyDeposit_total_value, applyDeposit_total_shares]
  have hmint := mint_ge v g h1 (price_le_unit v hVS) h3
  have hnet := netOf_le v g
  omega

lemma value_le_shares_trace :
    ∀ (gs : List ℕ) (v : Vault), v.total_value ≤ v.total_shares →
      okTrace v gs →
      (foldDeposits v gs).total_value ≤ (foldDeposits v gs).total_shares
  | [], _, h, _ => h
  | g :: gs, v, h, hok =>
    value_le_shares_trace gs (v.applyDeposit g).1
      (value_le_shares_step v g h hok.1) hok.2

/-- Claim C1 (as stated, refuted at the spec's own scenario): a deposit of
1,000,000,000 stroops into the empty Low-risk vault mints 1,000,000,000
shares, not the 995,000,000 the claim asserts — the source prices shares on
the gross amount (src/main.rs:252), before the insurance cut is even
computed. -/
theorem deposit_mints_gross_not_net_cex :
    (initLowVault.applyDeposit 1000000000).2.1 = 1000000000 ∧
    (initLowVault.applyDeposit 1000000000).2.1 ≠ 995000000 := by
  decide

/-- Claim C1 (amended): the number of shares minted equals
`(gross_amount * UNIT / price) as u64`, where price is the share price of
the pre-deposit state; the net amount plays no role in minting.  In the
spec's scenario (empty Low vault, deposit of 1,000,000,000) this mints
1,000,000,000 shares, with insurance cut 5,000,000, net amount 995,000,000
credited to `total_value`, and 995,000,000 allocated to the single
strategy. -/
theorem deposit_minted_shares_formula :
    (∀ (v : Vault) (g : ℕ),
      (v.applyDeposit g).2.1 = (g * UNIT / v.get_share_price) % U64MOD) ∧
    (initLowVault.applyDeposit 1000000000).2.1 = 1000000000 ∧
    (initLowVault.applyDeposit 1000000000).2.2 = 5000000 ∧
    netOf initLowVault 1000000000 = 995000000 ∧
    (initLowVault.applyDeposit 1000000000).1.total_value = 995000000 ∧
    (initLowVault.applyDeposit 1000000000).1.strategies.map
      Strategy.total_allocated = [995000000] := by
  refine ⟨fun v g => rfl, ?_, ?_, ?_, ?_, ?_⟩ <;> decide

/-- Claim C2 (as stated, refuted): the share price strictly decreases on the
very first deposit into the empty Low-risk vault — shares are minted on the
gross amount while only the net amount is credited to `total_value`, so the
price drops from 10,000,000 to 9,950,000. -/
theorem share_price_decreases_cex :
    (initLowVault.applyDeposit 1000000000).1.get_share_price <
      initLowVault.get_share_price := by
  decide

/-- Claim C2 (amended): the share price is not non-decreasing (see the
counterexample); what holds instead is an upper bound: starting from any
vault with `total_value ≤ total_shares` (in particular from each freshly
constructed, empty vault), along any deposit sequence free of zero-price
division and 64-bit overflow, the share price never exceeds `UNIT`. -/
theorem share_price_bounded_by_unit (v0 : Vault) (gs : List ℕ)
    (hVS : v0.total_value ≤ v0.total_shares) (hok : okTrace v0 gs) :
    (foldDeposits v0 gs).get_share_price ≤ UNIT :=
  price_le_unit _ (value_le_shares_trace gs v0 hVS hok)

/-- Witness for `share_price_bounded_by_unit` at the scenario deposit. -/
theorem share_price_bounded_by_unit_witness :
    (foldDeposits initLowVault [1000000000]).get_share_price ≤ UNIT :=
  share_price_bounded_by_unit initLowVault [1000000000] (by decide) (by decide)

/-- Claim C3 (as stated, refuted): in the reachable state with
`total_value = 995`, `total_shares = 1000` (price 9,950,000), a deposit of
10,000 stroops mints 10,050 shares, strictly more than the exact-arithmetic
net entitlement `9950 * UNIT / 9950000 = 10000`. -/
theorem minted_exceeds_net_entitlement_cex :
    0 < vaultAfterFirst.total_shares ∧
    (vaultAfterFirst.applyDeposit 10000).2.1 = 10050 ∧
    netOf vaultAfterFirst 10000 = 9950 ∧
    vaultAfterFirst.get_share_price = 9950000 ∧
    ¬ ((10050 : ℚ) ≤ (9950 : ℚ) * ((UNIT : ℕ) : ℚ) / (9950000 : ℚ)) := by
  refine ⟨by decide, by decide, by decide, by decide, ?_⟩
  norm_num [UNIT]

/-- Claim C3 (amended): the floor property holds with respect to the gross
amount rather than the net amount: minted shares never exceed
`gross_amount * UNIT / price` computed in exact rational arithmetic. -/
theorem minted_within_gross_entitlement (v : Vault) (g : ℕ)
    (hp : 0 < v.get_share_price) :
    ((v.applyDeposit g).2.1 : ℚ) ≤
      (g : ℚ) * ((UNIT : ℕ) : ℚ) / (v.get_share_price : ℚ) := by
  rw [applyDeposit_minted]
  calc (((g * UNIT / v.get_share_price) % U64MOD : ℕ) : ℚ)
      ≤ ((g * UNIT / v.get_share_price : ℕ) : ℚ) := by
        exact_mod_cast Nat.mod_le _ _
    _ ≤ ((g * UNIT : ℕ) : ℚ) / ((v.get_share_price : ℕ) : ℚ) := Nat.cast_div_le
    _ = (g : ℚ) * ((UNIT : ℕ) : ℚ) / (v.get_share_price : ℚ) := by push_cast; ring

/-- Witness for `minted_within_gross_entitlement` at the deposit of the C3
counterexample state. -/
theorem minted_within_gross_entitlement_witness :
    ((vaultAfterFirst.applyDeposit 10000).2.1 : ℚ) ≤
      (10000 : ℚ) * ((UNIT : ℕ) : ℚ) / (vaultAfterFirst.get_share_price : ℚ) :=
  minted_within_gross_entitlement vaultAfterFirst 10000 (by decide)

/-- Claim C4 (confirmed): for every gross amount `0 < g < 2^64` and fee rate
below 10,000 basis points, the insurance cut is the floor
`g * fee / 10000` (its narrowing cast is the identity), it never exceeds the
gross amount (so the `u64` subtraction producing the net amount cannot
underflow — the ℕ rendering of "net_amount is non-negative"), and cut plus
net equals the gross amount exactly. -/
theorem insurance_fee_conservation (v : Vault) (g : ℕ) (hg0 : 0 < g)
    (hfee : v.insurance_fee < 10000) (hg : g < U64MOD) :
    insuranceCutOf v g = g * v.insurance_fee / 10000 ∧
    insuranceCutOf v g ≤ g ∧
    insuranceCutOf v g + netOf v g = g := by
  have h1 : g * v.insurance_fee / 10000 ≤ g := by
    calc g * v.insurance_fee / 10000 ≤ g * 10000 / 10000 :=
          Nat.div_le_div_right (Nat.mul_le_mul_left _ (Nat.le_of_lt hfee))
      _ = g := Nat.mul_div_cancel g (show (0 : ℕ) < 10000 by decide)
  have h2 : g * v.insurance_fee / 10000 < U64MOD := lt_of_le_of_lt h1 hg
  have hid : insuranceCutOf v g = g * v.insurance_fee / 10000 := by
    unfold insuranceCutOf
    exact Nat.mod_eq_of_lt h2
  refine ⟨hid, ?_, ?_⟩
  · rw [hid]; exact h1
  · unfold netOf
    rw [hid]
    omega

/-- Witness for `insurance_fee_conservation` at the scenario deposit. -/
theorem insurance_fee_conservation_witness :
    insuranceCutOf initLowVault 1000000000 =
      1000000000 * initLowVault.insurance_fee / 10000 ∧
    insuranceCutOf initLowVault 1000000000 ≤ 1000000000 ∧
    insuranceCutOf initLowVault 1000000000 + netOf initLowVault 1000000000 =
      1000000000 :=
  insurance_fee_conservation initLowVault 1000000000 (by decide) (by decide)
    (by decide)

/-- Claim C6 (as stated, refuted): on the (unreachable but representable)
state `total_value = 2^63`, `total_shares = 1`, the narrowing cast of
`get_share_price` truncates the quotient `2^63 * UNIT` to its low 64 bits,
returning 0 instead of the claimed floor value. -/
theorem share_price_narrowing_cex :
    bigVault.get_share_price ≠
      bigVault.total_value * UNIT / bigVault.total_shares ∧
    bigVault.get_share_price = 0 := by
  decide

/-- Claim C6 (amended): `get_share_price` returns `UNIT` when
`total_shares = 0`, and otherwise returns
`(total_value * UNIT / total_shares) as u64` — which equals the exact floor
quotient whenever that quotient fits in 64 bits, in particular whenever
`total_value ≤ total_shares` (true in every reachable state), where it is
moreover bounded by `UNIT`.  The function is pure, so repeated calls on the
same state trivially agree. -/
theorem share_price_contract (v : Vault) :
    (v.total_shares = 0 → v.get_share_price = UNIT) ∧
    (0 < v.total_shares →
      v.get_share_price = (v.total_value * UNIT / v.total_shares) % U64MOD) ∧
    (0 < v.total_shares → v.total_value * UNIT / v.total_shares < U64MOD →
      v.get_share_price = v.total_value * UNIT / v.total_shares) ∧
    (v.total_value ≤ v.total_shares → v.get_share_price ≤ UNIT) := by
  refine ⟨?_, ?_, ?_, price_le_unit v⟩
  · intro h
    unfold Vault.get_share_price
    rw [if_pos h]
  · intro h
    unfold Vault.get_share_price
    rw [if_neg (Nat.pos_iff_ne_zero.mp h)]
  · intro h hfit
    unfold Vault.get_share_price
    rw [if_neg (Nat.pos_iff_ne_zero.mp h), Nat.mod_eq_of_lt hfit]

/-- Witness for `share_price_contract` on a reachable non-empty state. -/
theorem share_price_contract_witness :
    vaultAfterFirst.get_share_price =
      vaultAfterFirst.total_value * UNIT / vaultAfterFirst.total_shares :=
  (share_price_contract vaultAfterFirst).2.2.1 (by decide) (by decide)

lemma foldDeposits_nil (v : Vault) : foldDeposits v [] = v := rfl

lemma foldDeposits_cons (v : Vault) (g : ℕ) (gs : List ℕ) :
    foldDeposits v (g :: gs) = foldDeposits (v.applyDeposit g).1 gs := rfl

lemma nat_div_add_div_le (x y c : ℕ) (hc : 0 < c) :
    x / c + y / c ≤ (x + y) / c := by
  rw [Nat.le_div_iff_mul_le hc, Nat.add_mul]
  exact Nat.add_le_add (Nat.div_mul_le_self x c) (Nat.div_mul_le_self y c)

lemma list_sum_map_add (f h : Strategy → ℕ) :
    ∀ l : List Strategy,
      (l.map fun x => f x + h x).sum = (l.map f).sum + (l.map h).sum := by
  intro l
  induction l with
  | nil => simp
  | cons a l ih =>
    simp only [List.map_cons, List.sum_cons, ih]
    omega

lemma alloc_mod_id (net pct : ℕ) (hpct : pct ≤ 100) (hnet : net < U64MOD) :
    (net * pct / 100) % U64MOD = net * pct / 100 ∧ net * pct / 100 ≤ net := by
  have hle : net * pct / 100 ≤ net := by
    calc net * pct / 100 ≤ net * 100 / 100 :=
          Nat.div_le_div_right (Nat.mul_le_mul_left _ hpct)
      _ = net := Nat.mul_div_cancel net (show (0 : ℕ) < 100 by decide)
  exact ⟨Nat.mod_eq_of_lt (lt_of_le_of_lt hle hnet), hle⟩

lemma pctSum_applyDeposit (v : Vault) (g : ℕ) :
    pctSum (v.applyDeposit g).1 = pctSum v := by
  unfold pctSum
  rw [applyDeposit_strategies, List.map_map]
  congr 1

lemma pcts_le_applyDeposit (v : Vault) (g : ℕ)
    (h : ∀ s ∈ v.strategies, s.allocation_percentage ≤ 100) :
    ∀ s ∈ (v.applyDeposit g).1.strategies, s.allocation_percentage ≤ 100 := by
  intro s hs
  rw [applyDeposit_strategies] at hs
  obtain ⟨t, ht, rfl⟩ := List.mem_map.mp hs
  exact h t ht

lemma remainderOf_applyDeposit (v : Vault) (g g' : ℕ) :
    remainderOf (v.applyDeposit g).1 g' = remainderOf v g' := by
  unfold remainderOf netOf insuranceCutOf
  rw [applyDeposit_insurance_fee, applyDeposit_strategies, List.map_map]
  congr 2

lemma sumAllocated_step (v : Vault) (g : ℕ) (hnet : netOf v g < U64MOD)
    (hpcts : ∀ s ∈ v.strategies, s.allocation_percentage ≤ 100) :
    sumAllocated (v.applyDeposit g).1 =
      sumAllocated v +
        (v.strategies.map fun s =>
          netOf v g * s.allocation_percentage / 100).sum := by
  unfold sumAllocated
  rw [applyDeposit_strategies, List.map_map]
  have hcong : ∀ s ∈ v.strategies,
      (Strategy.total_allocated ∘ Strategy.allocate (netOf v g)) s =
        s.total_allocated + netOf v g * s.allocation_percentage / 100 := by
    intro s hs
    have h := alloc_mod_id (netOf v g) s.allocation_percentage (hpcts s hs) hnet
    simp only [Function.comp_apply, Strategy.allocate, h.1]
  rw [List.map_congr_left hcong,
    list_sum_map_add Strategy.total_allocated
      (fun s => netOf v g * s.allocation_percentage / 100) v.strategies]

lemma sum_allocs_le_pct (net : ℕ) :
    ∀ l : List Strategy,
      (l.map fun s => net * s.allocation_percentage / 100).sum ≤
        net * (l.map Strategy.allocation_percentage).sum / 100
  | [] => by simp
  | s :: l => by
    simp only [List.map_cons, List.sum_cons]
    calc net * s.allocation_percentage / 100 +
          (l.map fun s => net * s.allocation_percentage / 100).sum
        ≤ net * s.allocation_percentage / 100 +
            net * (l.map Strategy.allocation_percentage).sum / 100 :=
          Nat.add_le_add_left (sum_allocs_le_pct net l) _
      _ ≤ (net * s.allocation_percentage +
            net * (l.map Strategy.allocation_percentage).sum) / 100 :=
          nat_div_add_div_le _ _ 100 (by decide)
      _ = net * (s.allocation_percentage +
            (l.map Strategy.allocation_percentage).sum) / 100 := by
          rw [Nat.mul_add]

lemma alloc_invariant_trace :
    ∀ (gs : List ℕ) (v : Vault), pctSum v = 100 →
      (∀ s ∈ v.strategies, s.allocation_percentage ≤ 100) →
      sumAllocated v ≤ v.total_value → okTrace v gs →
      sumAllocated (foldDeposits v gs) ≤ (foldDeposits v gs).total_value ∧
      (foldDeposits v gs).total_value - sumAllocated (foldDeposits v gs) =
        (v.total_value - sumAllocated v) + (gs.map (remainderOf v)).sum
  | [], v, _, _, hAV, _ => ⟨hAV, by simp [foldDeposits_nil]⟩
  | g :: gs, v, hsum, hpcts, hAV, hok => by
    obtain ⟨hokg, hoktl⟩ := hok
    have hg : g < U64MOD := hokg.2.1
    have hnet : netOf v g < U64MOD := lt_of_le_of_lt (netOf_le v g) hg
    have hstep := sumAllocated_step v g hnet hpcts
    have hsle : (v.strategies.map fun s =>
        netOf v g * s.allocation_percentage / 100).sum ≤ netOf v g := by
      have h := sum_allocs_le_pct (netOf v g) v.strategies
      rw [show (v.strategies.map Strategy.allocation_percentage).sum = pctSum v
            from rfl,
        hsum, Nat.mul_div_cancel _ (show (0 : ℕ) < 100 by decide)] at h
      exact h
    have ih := alloc_invariant_trace gs (v.applyDeposit g).1
      (by rw [pctSum_applyDeposit]; exact hsum)
      (pcts_le_applyDeposit v g hpcts)
      (by rw [hstep, applyDeposit_total_value]; omega)
      hoktl
    rw [foldDeposits_cons]
    refine ⟨ih.1, ?_⟩
    have htail : (gs.map (remainderOf (v.applyDeposit g).1)).sum =
        (gs.map (remainderOf v)).sum := by
      rw [List.map_congr_left (fun x _ => remainderOf_applyDeposit v g x)]
    have h2 := ih.2
    rw [htail, hstep, applyDeposit_total_value] at h2
    rw [h2, List.map_cons, List.sum_cons]
    have hrem : remainderOf v g =
        netOf v g - (v.strategies.map fun s =>
          netOf v g * s.allocation_percentage / 100).sum := rfl
    omega

/-- Claim C5 (confirmed): after any admissible sequence of deposits into any
of the three vaults, the sum of the strategies' `total_allocated` never
exceeds `total_value`, and the shortfall equals exactly the sum, over the
past deposits, of the per-deposit floor-division remainders (the part of
each net amount no strategy received). -/
theorem allocation_accounting_invariant (v0 : Vault) (gs : List ℕ)
    (h0 : v0 = initLowVault ∨ v0 = initMediumVault ∨ v0 = initHighVault)
    (hok : okTrace v0 gs) :
    sumAllocated (foldDeposits v0 gs) ≤ (foldDeposits v0 gs).total_value ∧
    (foldDeposits v0 gs).total_value - sumAllocated (foldDeposits v0 gs) =
      (gs.map (remainderOf v0)).sum := by
  rcases h0 with rfl | rfl | rfl
  · obtain ⟨h1, h2⟩ :=
      alloc_invariant_trace gs _ (by decide) (by decide) (by decide) hok
    refine ⟨h1, ?_⟩
    rw [h2,
      show initLowVault.total_value - sumAllocated initLowVault = 0 from by decide,
      Nat.zero_add]
  · obtain ⟨h1, h2⟩ :=
      alloc_invariant_trace gs _ (by decide) (by decide) (by decide) hok
    refine ⟨h1, ?_⟩
    rw [h2,
      show initMediumVault.total_value - sumAllocated initMediumVault = 0 from by decide,
      Nat.zero_add]
  · obtain ⟨h1, h2⟩ :=
      alloc_invariant_trace gs _ (by decide) (by decide) (by decide) hok
    refine ⟨h1, ?_⟩
    rw [h2,
      show initHighVault.total_value - sumAllocated initHighVault = 0 from by decide,
      Nat.zero_add]

/-- Witness for `allocation_accounting_invariant`: one Medium-tier deposit of
1,001 stroops (net 991 splits 594 + 396, leaving remainder 1). -/
theorem allocation_accounting_invariant_witness :
    sumAllocated (foldDeposits initMediumVault [1001]) ≤
      (foldDeposits initMediumVault [1001]).total_value ∧
    (foldDeposits initMediumVault [1001]).total_value -
        sumAllocated (foldDeposits initMediumVault [1001]) =
      ([1001].map (remainderOf initMediumVault)).sum :=
  allocation_accounting_invariant initMediumVault [1001]
    (Or.inr (Or.inl rfl)) (by decide)

/-- The single strategy of the Low-risk vault, as constructed. -/
def lowStrategy0 : Strategy :=
  { strategy_type := StrategyType.YieldBloxLending
    allocation_percentage := 100
    current_apy := 350
    total_allocated := 0
    current_yield := 0 }

lemma alloc_mono_trace :
    ∀ (gs : List ℕ) (v : Vault) (i : ℕ) (s : Strategy),
      v.strategies[i]? = some s →
      ∃ s', (foldDeposits v gs).strategies[i]? = some s' ∧
        s.total_allocated ≤ s'.total_allocated
  | [], _, _, s, h => ⟨s, h, Nat.le_refl _⟩
  | g :: gs, v, i, s, h => by
    have hstep : (v.applyDeposit g).1.strategies[i]? =
        some (Strategy.allocate (netOf v g) s) := by
      rw [applyDeposit_strategies, List.getElem?_map, h]
      rfl
    obtain ⟨s', h', hle⟩ :=
      alloc_mono_trace gs (v.applyDeposit g).1 i
        (Strategy.allocate (netOf v g) s) hstep
    exact ⟨s', h', le_trans (Nat.le_add_right _ _) hle⟩

/-- Claim C7 (confirmed): a deposit updates each strategy, in sequence order,
by adding exactly `floor(net_amount * allocation_percentage / 100)` to its
`total_allocated` (for the in-range percentages and amounts of this program),
and consequently every strategy's `total_allocated` is non-decreasing across
any sequence of deposits. -/
theorem strategy_allocation_step (v : Vault) (g i : ℕ) (s : Strategy)
    (hi : v.strategies[i]? = some s) :
    (s.allocation_percentage ≤ 100 → g < U64MOD →
      (v.applyDeposit g).1.strategies[i]? =
        some { s with total_allocated := (s.total_allocated +
          netOf v g * s.allocation_percentage / 100 : ℕ) }) ∧
    (∀ (gs : List ℕ) (s' : Strategy),
      (foldDeposits v gs).strategies[i]? = some s' →
      s.total_allocated ≤ s'.total_allocated) := by
  constructor
  · intro hpct hg
    rw [applyDeposit_strategies, List.getElem?_map, hi]
    have h := alloc_mod_id (netOf v g) s.allocation_percentage hpct
      (lt_of_le_of_lt (netOf_le v g) hg)
    simp [Strategy.allocate, h.1]
  · intro gs s' h'
    obtain ⟨s'', h'', hle⟩ := alloc_mono_trace gs v i s hi
    rw [h'] at h''
    cases Option.some.inj h''
    exact hle

/-- Witness for `strategy_allocation_step` on the Low vault: the scenario
deposit allocates net 995,000,000 to the single strategy, and a later
lookup after a further deposit shows the total only grew. -/
theorem strategy_allocation_step_witness :
    (initLowVault.applyDeposit 1000000000).1.strategies[0]? =
      some { lowStrategy0 with total_allocated := (lowStrategy0.total_allocated +
        netOf initLowVault 1000000000 * lowStrategy0.allocation_percentage / 100 : ℕ) } ∧
    lowStrategy0.total_allocated ≤
      (Strategy.allocate (netOf initLowVault 5) lowStrategy0).total_allocated :=
  ⟨(strategy_allocation_step initLowVault 1000000000 0 lowStrategy0 rfl).1
      (by decide) (by decide),
   (strategy_allocation_step initLowVault 5 0 lowStrategy0 rfl).2 [5] _ rfl⟩

lemma deposit_eq (sv : StellarVault) (env : DepositEnv) (u : String)
    (r : RiskLevel) (g : ℕ) :
    sv.deposit env u r g =
      if preflightRejects env ((g : ℚ) / 10000000) then
        (sv, Except.error DepositError.insufficientBalance)
      else
        depositFromTransfer sv env u r g := rfl

lemma runDeposits_nil (sv : StellarVault) : runDeposits sv [] = sv := rfl

lemma runDeposits_cons (sv : StellarVault) (q : DepositReq) (reqs : List DepositReq) :
    runDeposits sv (q :: reqs) =
      runDeposits (sv.deposit q.1 q.2.1 q.2.2.1 q.2.2.2).1 reqs := rfl

lemma depositFromTransfer_error_no_mutation (sv : StellarVault)
    (env : DepositEnv) (u : String) (r : RiskLevel) (g : ℕ) (e : DepositError)
    (h : (depositFromTransfer sv env u r g).2 = Except.error e) :
    (depositFromTransfer sv env u r g).1 = sv := by
  unfold depositFromTransfer at h ⊢
  cases htr : env.transfer_result with
  | error e' => rfl
  | ok w =>
    rw [htr] at h
    cases hv : sv.vaults r with
    | none => rfl
    | some vault =>
      rw [hv] at h
      simp at h

/-- Claim C8 (confirmed): whenever `deposit` returns an error — insufficient
balance, transfer failure, or missing vault — the registry state it leaves
behind is exactly the state it was given: every error return happens before
any ledger mutation (src/main.rs:232,246,250 all precede the mutations at
src/main.rs:257-269). -/
theorem deposit_error_no_mutation (sv : StellarVault) (env : DepositEnv)
    (u : String) (r : RiskLevel) (g : ℕ) (e : DepositError)
    (h : (sv.deposit env u r g).2 = Except.error e) :
    (sv.deposit env u r g).1 = sv := by
  rw [deposit_eq] at h ⊢
  by_cases hpf : preflightRejects env ((g : ℚ) / 10000000) = true
  · rw [if_pos hpf]
  · rw [if_neg hpf] at h ⊢
    exact depositFromTransfer_error_no_mutation sv env u r g e h

/-- The outcomes of a run where the external transfer fails. -/
def failMsg : String := "transfer rejected"

/-- Environment whose balance fetch fails and whose transfer fails. -/
def envFail : DepositEnv :=
  { balance_fetch := none, transfer_result := Except.error failMsg }

/-- Environment whose balance fetch fails and whose transfer succeeds. -/
def envNone : DepositEnv :=
  { balance_fetch := none, transfer_result := Except.ok () }

/-- A user identifier for concrete instances. -/
def someUser : String := "u"

/-- The vault custody address hard-coded in `main` (src/main.rs:306). -/
def demoAddr : String := "GCZEAWUJY3BRHCOKU6C5WRLCF5RFSGY22UGBPBXWL4T4G4SSEQMIYMCX"

/-- The user secret key hard-coded in `main` (src/main.rs:304). -/
def demoSecret : String := "SCT3AR46YPEOBWSRIRD7I74BVFI2PNQULEZB4QAG7XJFU3JBMTS53ZHT"

/-- The user public key hard-coded in `main` (src/main.rs:305). -/
def demoPublic : String := "GCBVQ4OOQY2MREIAQMNNBV2ENSBCPN5SKXIOTO4SV3ENVEVYM5XLTYQY"

/-- Witness for `deposit_error_no_mutation`: a failing transfer leaves the
fresh registry unchanged. -/
theorem deposit_error_no_mutation_witness :
    (StellarVault.deposit (mkRegistryWith demoAddr) envFail someUser
      RiskLevel.Low 5).1 = mkRegistryWith demoAddr :=
  deposit_error_no_mutation (mkRegistryWith demoAddr) envFail someUser
    RiskLevel.Low 5 (DepositError.transferFailed failMsg) rfl

lemma new_ok_registry (ks kp va : String) (sv0 : StellarVault)
    (h : StellarVault.new ks kp va = Except.ok sv0) :
    sv0 = mkRegistryWith va := by
  unfold StellarVault.new at h
  by_cases h1 : ks.data.head? = some 'S' ∧ ks.length = 56
  · rw [if_pos h1] at h
    by_cases h2 : kp.data.head? = some 'G' ∧ kp.length = 56
    · rw [if_pos h2] at h
      exact (Except.ok.inj h).symm
    · rw [if_neg h2] at h
      exact absurd h (by simp)
  · rw [if_neg h1] at h
    exact absurd h (by simp)

lemma vaults_isSome_deposit (sv : StellarVault) (env : DepositEnv)
    (u : String) (r' : RiskLevel) (g : ℕ)
    (h : ∀ r, ((sv.vaults r).isSome : Bool) = true) :
    ∀ r, (((sv.deposit env u r' g).1.vaults r).isSome : Bool) = true := by
  intro r
  rw [deposit_eq]
  by_cases hpf : preflightRejects env ((g : ℚ) / 10000000) = true
  · rw [if_pos hpf]
    exact h r
  · rw [if_neg hpf]
    unfold depositFromTransfer
    cases htr : env.transfer_result with
    | error e => exact h r
    | ok w =>
      cases hv : sv.vaults r' with
      | none => exact h r
      | some vault =>
        by_cases hr : r = r'
        · simp [hr]
        · simpa [hr] using h r

lemma vaults_isSome_run :
    ∀ (reqs : List DepositReq) (sv : StellarVault),
      (∀ r, ((sv.vaults r).isSome : Bool) = true) →
      ∀ r, (((runDeposits sv reqs).vaults r).isSome : Bool) = true
  | [], _, h => h
  | q :: reqs, sv, h =>
    vaults_isSome_run reqs _
      (vaults_isSome_deposit sv q.1 q.2.1 q.2.2.1 q.2.2.2 h)

lemma no_vaultNotFound (sv : StellarVault) (env : DepositEnv) (u : String)
    (r : RiskLevel) (g : ℕ) (h : ((sv.vaults r).isSome : Bool) = true) :
    (sv.deposit env u r g).2 ≠ Except.error DepositError.vaultNotFound := by
  rw [deposit_eq]
  by_cases hpf : preflightRejects env ((g : ℚ) / 10000000) = true
  · rw [if_pos hpf]
    intro hc
    exact DepositError.noConfusion (Except.error.inj hc)
  · rw [if_neg hpf]
    unfold depositFromTransfer
    cases htr : env.transfer_result with
    | error e =>
      intro hc
      exact DepositError.noConfusion (Except.error.inj hc)
    | ok w =>
      cases hv : sv.vaults r with
      | none =>
        rw [hv] at h
        exact absurd h (by simp)
      | some vault =>
        intro hc
        exact Except.noConfusion hc

/-- Claim C9 (confirmed): every registry `StellarVault::new` returns holds a
vault for each of the three risk levels, deposits never remove one, and so
the vault lookup inside `deposit` always succeeds: after any sequence of
deposit calls the lookup is `some` for every tier and the "Vault not found"
error is unreachable. -/
theorem vault_lookup_never_fails (ks kp va : String) (sv0 : StellarVault)
    (hnew : StellarVault.new ks kp va = Except.ok sv0)
    (reqs : List DepositReq) (r : RiskLevel) :
    (((runDeposits sv0 reqs).vaults r).isSome : Bool) = true ∧
    ∀ (env : DepositEnv) (u : String) (g : ℕ),
      (StellarVault.deposit (runDeposits sv0 reqs) env u r g).2 ≠
        Except.error DepositError.vaultNotFound := by
  obtain rfl := new_ok_registry ks kp va sv0 hnew
  have h0 : ∀ r', (((mkRegistryWith va).vaults r').isSome : Bool) = true :=
    fun _ => rfl
  have hall := vaults_isSome_run reqs (mkRegistryWith va) h0
  exact ⟨hall r, fun env u g =>
    no_vaultNotFound (runDeposits (mkRegistryWith va) reqs) env u r g (hall r)⟩

/-- Witness for `vault_lookup_never_fails` with the keys hard-coded in
`main` and one deposit request already run. -/
theorem vault_lookup_never_fails_witness :
    (((runDeposits (mkRegistryWith demoAddr)
        [(envNone, someUser, RiskLevel.Low, 1000)]).vaults
          RiskLevel.Medium).isSome : Bool) = true :=
  (vault_lookup_never_fails demoSecret demoPublic demoAddr
    (mkRegistryWith demoAddr) rfl
    [(envNone, someUser, RiskLevel.Low, 1000)] RiskLevel.Medium).1

lemma depositFromTransfer_not_insufficient (sv : StellarVault)
    (env : DepositEnv) (u : String) (r : RiskLevel) (g : ℕ) :
    (depositFromTransfer sv env u r g).2 ≠
      Except.error DepositError.insufficientBalance := by
  unfold depositFromTransfer
  cases htr : env.transfer_result with
  | error e =>
    intro hc
    exact DepositError.noConfusion (Except.error.inj hc)
  | ok w =>
    cases hv : sv.vaults r with
    | none =>
      intro hc
      exact DepositError.noConfusion (Except.error.inj hc)
    | some vault =>
      intro hc
      exact Except.noConfusion hc

/-- Claim C10 (confirmed): when the pre-flight balance fetch fails, `deposit`
does not error there — it proceeds directly to the external transfer with no
insufficient-funds check; and an insufficient-balance rejection can only
happen when the fetch succeeded with a balance below `amount + 1` XLM. -/
theorem preflight_failure_proceeds_to_transfer (sv : StellarVault)
    (env : DepositEnv) (u : String) (r : RiskLevel) (g : ℕ) :
    (env.balance_fetch = none →
      sv.deposit env u r g = depositFromTransfer sv env u r g) ∧
    ((sv.deposit env u r g).2 = Except.error DepositError.insufficientBalance →
      ∃ b, env.balance_fetch = some b ∧ b < (g : ℚ) / 10000000 + 1) := by
  constructor
  · intro hnone
    rw [deposit_eq]
    have hρ : preflightRejects env ((g : ℚ) / 10000000) = false := by
      unfold preflightRejects
      rw [hnone]
    simp [hρ]
  · intro h
    rw [deposit_eq] at h
    cases hbf : env.balance_fetch with
    | none =>
      have hρ : preflightRejects env ((g : ℚ) / 10000000) = false := by
        unfold preflightRejects
        rw [hbf]
      rw [if_neg (by simp [hρ])] at h
      exact absurd h (depositFromTransfer_not_insufficient sv env u r g)
    | some b =>
      by_cases hlt : b < (g : ℚ) / 10000000 + 1
      · exact ⟨b, rfl, hlt⟩
      · have hρ : preflightRejects env ((g : ℚ) / 10000000) = false := by
          unfold preflightRejects
          rw [hbf]
          simp [hlt]
        rw [if_neg (by simp [hρ])] at h
        exact absurd h (depositFromTransfer_not_insufficient sv env u r g)

/-- Witness for `preflight_failure_proceeds_to_transfer`: with a failed
balance fetch, the deposit call is the post-pre-flight continuation. -/
theorem preflight_failure_proceeds_to_transfer_witness :
    StellarVault.deposit (mkRegistryWith demoAddr) envNone someUser
        RiskLevel.High 7 =
      depositFromTransfer (mkRegistryWith demoAddr) envNone someUser
        RiskLevel.High 7 :=
  (preflight_failure_proceeds_to_transfer (mkRegistryWith demoAddr) envNone
    someUser RiskLevel.High 7).1 rfl
